import Mathlib

/-!
Shallow embedding of the student/test/result tracking service (src/main.py).

The Python service keeps three module-level collections:
  students : Dict[int, Student], tests : Dict[int, Test],
  test_results : List[TestResult].
Python dicts preserve insertion order, keys are unique, and deletion keeps
the relative order of the remaining entries; we model the two dicts as
insertion-ordered lists of records keyed by their `id` field (lookup is
`find?` on the id, insertion is an append, deletion is a filter) and the
result list as a plain list.  Each HTTP handler becomes a pure function;
`raise HTTPException(...)` becomes an `Except.error` carrying the same
status code and detail string, and handlers that mutate the globals return
the successor store (the original store when they raise, since the source
raises before any mutation).
-/

structure Student where
  id : Int
  name : String
  email : String
  tests_taken : List Int
deriving DecidableEq, Repr

structure Test where
  id : Int
  name : String
  max_score : Int
deriving DecidableEq, Repr

structure TestResult where
  student_id : Int
  test_id : Int
  score : Int
deriving DecidableEq, Repr

structure HTTPException where
  status_code : Nat
  detail : String
deriving DecidableEq, Repr

structure Store where
  students : List Student
  tests : List Test
  test_results : List TestResult
deriving DecidableEq, Repr

def emptyStore : Store := ⟨[], [], []⟩

/-- Dict lookup `students[id]` / membership `id in students`. -/
def findStudent (s : Store) (id : Int) : Option Student :=
  s.students.find? (fun st => st.id == id)

/-- Dict lookup `tests[id]` / membership `id in tests`. -/
def findTest (s : Store) (id : Int) : Option Test :=
  s.tests.find? (fun t => t.id == id)

/-- Handler `POST /students/` (src/main.py lines 33-38). -/
def create_student (s : Store) (student : Student) :
    Except HTTPException Student × Store :=
  if (findStudent s student.id).isSome then
    (.error ⟨400, "Student ID already exists"⟩, s)
  else
    (.ok student, { s with students := s.students ++ [student] })

/-- Handler `GET /students/{student_id}` (lines 40-44). -/
def get_student (s : Store) (student_id : Int) : Except HTTPException Student :=
  match findStudent s student_id with
  | none => .error ⟨404, "Student not found"⟩
  | some st => .ok st

/-- Handler `GET /students/` (lines 46-48). -/
def get_all_students (s : Store) : List Student :=
  s.students

/-- Handler `DELETE /students/{student_id}` (lines 50-55). -/
def delete_student (s : Store) (student_id : Int) :
    Except HTTPException String × Store :=
  if (findStudent s student_id).isSome then
    (.ok "Student deleted successfully",
      { s with students := s.students.filter (fun st => st.id != student_id) })
  else
    (.error ⟨404, "Student not found"⟩, s)

/-- Handler `POST /tests/` (lines 58-63). -/
def create_test (s : Store) (t : Test) : Except HTTPException Test × Store :=
  if (findTest s t.id).isSome then
    (.error ⟨400, "Test ID already exists"⟩, s)
  else
    (.ok t, { s with tests := s.tests ++ [t] })

/-- Handler `GET /tests/{test_id}` (lines 65-69). -/
def get_test (s : Store) (test_id : Int) : Except HTTPException Test :=
  match findTest s test_id with
  | none => .error ⟨404, "Test not found"⟩
  | some t => .ok t

/-- Handler `GET /tests/` (lines 71-73). -/
def get_all_tests (s : Store) : List Test :=
  s.tests

/-- The in-place mutation `students[result.student_id].tests_taken.append(result.test_id)`:
every stored student record with the matching id gets the test id appended
(a dict has at most one such entry). -/
def appendTaken (r : TestResult) (st : Student) : Student :=
  if st.id == r.student_id then
    { st with tests_taken := st.tests_taken ++ [r.test_id] }
  else st

/-- Handler `POST /results/` (lines 75-86): the three checks in source order, then
the two-step mutation. -/
def submit_test_result (s : Store) (result : TestResult) :
    Except HTTPException TestResult × Store :=
  match findStudent s result.student_id with
  | none => (.error ⟨404, "Student not found"⟩, s)
  | some _ =>
    match findTest s result.test_id with
    | none => (.error ⟨404, "Test not found"⟩, s)
    | some t =>
      if result.score > t.max_score then
        (.error ⟨400, "Score exceeds maximum possible score"⟩, s)
      else
        (.ok result,
          { s with
            test_results := s.test_results ++ [result],
            students := s.students.map (appendTaken result) })

/-- Handler `GET /results/student/{student_id}` (lines 88-92). -/
def get_student_results (s : Store) (student_id : Int) :
    Except HTTPException (List TestResult) :=
  if (findStudent s student_id).isSome then
    .ok (s.test_results.filter (fun r => r.student_id == student_id))
  else
    .error ⟨404, "Student not found"⟩

/-- Handler `GET /results/test/{test_id}` (lines 94-98). -/
def get_test_results (s : Store) (test_id : Int) :
    Except HTTPException (List TestResult) :=
  if (findTest s test_id).isSome then
    .ok (s.test_results.filter (fun r => r.test_id == test_id))
  else
    .error ⟨404, "Test not found"⟩

/-- The score list `[result.score for result in test_results if result.test_id == test_id]`. -/
def test_scores (s : Store) (test_id : Int) : List Int :=
  (s.test_results.filter (fun r => r.test_id == test_id)).map (fun r => r.score)

/-- Handler `GET /results/test/{test_id}/o'rtacha` (lines 100-107).  `statistics.mean`
over integers computes the exact arithmetic mean and returns it as a float;
we model the float by the exact rational. -/
def get_test_average (s : Store) (test_id : Int) : Except HTTPException Rat :=
  if (findTest s test_id).isSome then
    match test_scores s test_id with
    | [] => .error ⟨404, "No results found for this test"⟩
    | hd :: tl => .ok (((hd :: tl).sum : Rat) / ((hd :: tl).length : Rat))
  else
    .error ⟨404, "Test not found"⟩

/-- Handler `GET /results/test/{test_id}/eng_yuqori` (lines 109-116); Python
`max(list)` on a nonempty list is a left fold of binary max. -/
def get_test_highest (s : Store) (test_id : Int) : Except HTTPException Int :=
  if (findTest s test_id).isSome then
    match test_scores s test_id with
    | [] => .error ⟨404, "No results found for this test"⟩
    | hd :: tl => .ok (tl.foldl max hd)
  else
    .error ⟨404, "Test not found"⟩

/-- Handler `GET /results/test/{test_id}/eng_pasti` (lines 118-125). -/
def get_test_lowest (s : Store) (test_id : Int) : Except HTTPException Int :=
  if (findTest s test_id).isSome then
    match test_scores s test_id with
    | [] => .error ⟨404, "No results found for this test"⟩
    | hd :: tl => .ok (tl.foldl min hd)
  else
    .error ⟨404, "Test not found"⟩

/-- The state-mutating API calls, for reachability statements.  The read-only
endpoints take no reference to the mutable globals other than for reading, so
they are not state transitions. -/
inductive Op where
  | opCreateStudent (student : Student)
  | opDeleteStudent (student_id : Int)
  | opCreateTest (t : Test)
  | opSubmitResult (result : TestResult)
deriving DecidableEq, Repr

/-- The store after one API call (failed calls raise before mutating, so they
leave the store as it was). -/
def apply (s : Store) : Op → Store
  | .opCreateStudent st => (create_student s st).2
  | .opDeleteStudent i => (delete_student s i).2
  | .opCreateTest t => (create_test s t).2
  | .opSubmitResult r => (submit_test_result s r).2

/-- Run a sequence of API calls from a given store. -/
def run (s : Store) (ops : List Op) : Store :=
  ops.foldl apply s

/-- The store reached from the initial empty globals by a call sequence. -/
def exec (ops : List Op) : Store :=
  run emptyStore ops

/-- Every recorded result is within the max score of a stored test with its
test id.  Tests are immutable and never deleted, so the bound a result
satisfies now is the bound it satisfied when it was inserted. -/
def ScoreInv (s : Store) : Prop :=
  ∀ r ∈ s.test_results, ∃ t ∈ s.tests, t.id = r.test_id ∧ r.score ≤ t.max_score

/-- The ids of the successful student creations of a call sequence run from
`s`, in call order. -/
def studentCreations : Store → List Op → List Int
  | _, [] => []
  | s, op :: rest =>
    (match op with
      | .opCreateStudent st => if (findStudent s st.id).isSome then [] else [st.id]
      | _ => []) ++ studentCreations (apply s op) rest

/-- The test records successfully created by a call sequence run from `s`,
in call order. -/
def testCreations : Store → List Op → List Test
  | _, [] => []
  | s, op :: rest =>
    (match op with
      | .opCreateTest t => if (findTest s t.id).isSome then [] else [t]
      | _ => []) ++ testCreations (apply s op) rest

/-! Concrete data for instantiating the theorems (the scenario of spec §8). -/

def annLee : Student := ⟨1, "Ann Lee", "a@x.com", []⟩

def quiz : Test := ⟨1, "Quiz", 20⟩

def demoStore : Store := ⟨[annLee], [quiz], []⟩

def scoresStore : Store := ⟨[annLee], [quiz], [⟨1, 1, 5⟩, ⟨1, 1, 10⟩, ⟨1, 1, 15⟩]⟩

def demoOps : List Op :=
  [.opCreateStudent annLee, .opCreateTest quiz, .opSubmitResult ⟨1, 1, 18⟩]

/-! Helper lemmas about `find?` on the list encodings of the dicts. -/

theorem appendTaken_id (r : TestResult) (st : Student) :
    (appendTaken r st).id = st.id := by
  unfold appendTaken
  split <;> rfl

theorem find?_filter_of_imp {α : Type} (l : List α) (p q : α → Bool)
    (h : ∀ x, p x = true → q x = true) :
    (l.filter q).find? p = l.find? p := by
  induction l with
  | nil => rfl
  | cons a t ih =>
    by_cases hq : q a = true
    · rw [List.filter_cons_of_pos hq]
      by_cases hp : p a = true
      · rw [List.find?_cons_of_pos _ hp, List.find?_cons_of_pos _ hp]
      · rw [List.find?_cons_of_neg _ hp, List.find?_cons_of_neg _ hp, ih]
    · have hp : ¬ p a = true := fun hpa => hq (h a hpa)
      rw [List.filter_cons_of_neg hq, ih, List.find?_cons_of_neg _ hp]

theorem find?_map_appendTaken (r : TestResult) (l : List Student) (id : Int) :
    (l.map (appendTaken r)).find? (fun st => st.id == id)
      = (l.find? (fun st => st.id == id)).map (appendTaken r) := by
  rw [List.find?_map]
  have hfun : ((fun st => st.id == id) ∘ appendTaken r) = fun st : Student => st.id == id := by
    funext st
    simp [Function.comp, appendTaken_id]
  rw [hfun]

theorem findStudent_submit_store (s : Store) (r : TestResult) (id : Int) :
    findStudent { s with
        test_results := s.test_results ++ [r],
        students := s.students.map (appendTaken r) } id
      = (findStudent s id).map (appendTaken r) := by
  unfold findStudent
  exact find?_map_appendTaken r s.students id

/-- C1: on a result submission exactly the three checks run in the fixed
source order — unknown student, then unknown test, then score above the
test's max score — and the first failing check is the error reported (the
later conditions are unconstrained when an earlier check fails); when all
three pass, the submission succeeds. -/
theorem submit_checks_fixed_order (s : Store) (r : TestResult) :
    (findStudent s r.student_id = none →
      (submit_test_result s r).1 = .error ⟨404, "Student not found"⟩) ∧
    (∀ st, findStudent s r.student_id = some st → findTest s r.test_id = none →
      (submit_test_result s r).1 = .error ⟨404, "Test not found"⟩) ∧
    (∀ st t, findStudent s r.student_id = some st → findTest s r.test_id = some t →
      r.score > t.max_score →
      (submit_test_result s r).1 = .error ⟨400, "Score exceeds maximum possible score"⟩) ∧
    (∀ st t, findStudent s r.student_id = some st → findTest s r.test_id = some t →
      ¬ r.score > t.max_score →
      (submit_test_result s r).1 = .ok r) := by
  refine ⟨fun h1 => ?_, fun st h1 h2 => ?_, fun st t h1 h2 h3 => ?_, fun st t h1 h2 h3 => ?_⟩
  · simp [submit_test_result, h1]
  · simp [submit_test_result, h1, h2]
  · simp [submit_test_result, h1, h2, h3]
  · simp [submit_test_result, h1, h2, h3]

/-- Witness for C1: submitting to the empty store reports the unknown
student, the first check in the order. -/
theorem submit_checks_fixed_order_witness :
    (submit_test_result emptyStore ⟨1, 1, 5⟩).1 = .error ⟨404, "Student not found"⟩ :=
  (submit_checks_fixed_order emptyStore ⟨1, 1, 5⟩).1 rfl

/-- C2: a submission whose student and test exist and whose score is within
the test's max score succeeds, appends the result to the global result list,
appends the test id to that student's taken-tests sequence, and both effects
are observable through the read endpoints afterward. -/
theorem submit_valid_appends (s : Store) (r : TestResult) (st : Student) (t : Test)
    (hs : findStudent s r.student_id = some st)
    (ht : findTest s r.test_id = some t)
    (hsc : r.score ≤ t.max_score) :
    (submit_test_result s r).1 = .ok r ∧
    (submit_test_result s r).2.test_results = s.test_results ++ [r] ∧
    get_student (submit_test_result s r).2 r.student_id
      = .ok { st with tests_taken := st.tests_taken ++ [r.test_id] } ∧
    get_student_results (submit_test_result s r).2 r.student_id
      = .ok (s.test_results.filter (fun x => x.student_id == r.student_id) ++ [r]) ∧
    get_test_results (submit_test_result s r).2 r.test_id
      = .ok (s.test_results.filter (fun x => x.test_id == r.test_id) ++ [r]) := by
  have hnot : ¬ r.score > t.max_score := not_lt.mpr hsc
  have hid : st.id = r.student_id := by
    have := List.find?_some hs
    simpa using this
  have hstep : (submit_test_result s r).2
      = { s with
          test_results := s.test_results ++ [r],
          students := s.students.map (appendTaken r) } := by
    simp [submit_test_result, hs, ht, hnot]
  have hfind : findStudent (submit_test_result s r).2 r.student_id
      = some { st with tests_taken := st.tests_taken ++ [r.test_id] } := by
    rw [hstep, findStudent_submit_store, hs]
    simp [appendTaken, hid]
  refine ⟨by simp [submit_test_result, hs, ht, hnot], by rw [hstep], ?_, ?_, ?_⟩
  · simp [get_student, hfind]
  · rw [get_student_results, if_pos (by simp [hfind]), hstep]
    simp [List.filter_append]
  · have hfindt : findTest (submit_test_result s r).2 r.test_id = some t := by
      rw [hstep]
      exact ht
    rw [get_test_results, if_pos (by simp [hfindt]), hstep]
    simp [List.filter_append]

/-- Witness for C2: the spec §8 scenario — student 1 and test 1 exist, score
18 ≤ 20; the result lands in the result list and test 1 in Ann's
taken-tests. -/
theorem submit_valid_appends_witness :
    (submit_test_result demoStore ⟨1, 1, 18⟩).1 = .ok ⟨1, 1, 18⟩ ∧
    (submit_test_result demoStore ⟨1, 1, 18⟩).2.test_results = [⟨1, 1, 18⟩] ∧
    get_student (submit_test_result demoStore ⟨1, 1, 18⟩).2 1
      = .ok ⟨1, "Ann Lee", "a@x.com", [1]⟩ ∧
    get_student_results (submit_test_result demoStore ⟨1, 1, 18⟩).2 1
      = .ok [⟨1, 1, 18⟩] ∧
    get_test_results (submit_test_result demoStore ⟨1, 1, 18⟩).2 1
      = .ok [⟨1, 1, 18⟩] :=
  submit_valid_appends demoStore ⟨1, 1, 18⟩ annLee quiz rfl rfl (by decide)

/-- C3: a failing submission (unknown student, unknown test, or score above
the max) leaves the whole store unchanged — in particular the result list
and every student's taken-tests sequence. -/
theorem submit_failure_no_side_effect (s : Store) (r : TestResult) (e : HTTPException)
    (h : (submit_test_result s r).1 = .error e) :
    (submit_test_result s r).2 = s := by
  unfold submit_test_result at h ⊢
  cases hfs : findStudent s r.student_id with
  | none => simp [hfs]
  | some st =>
    cases hft : findTest s r.test_id with
    | none => simp [hfs, hft]
    | some t =>
      by_cases hsc : r.score > t.max_score
      · simp [hfs, hft, hsc]
      · rw [hfs, hft] at h
        simp [hsc] at h

/-- Witness for C3: submitting an over-max score in the §8 scenario fails
and the store is exactly the prior store. -/
theorem submit_failure_no_side_effect_witness :
    (submit_test_result demoStore ⟨1, 1, 25⟩).2 = demoStore :=
  submit_failure_no_side_effect demoStore ⟨1, 1, 25⟩
    ⟨400, "Score exceeds maximum possible score"⟩ rfl

/-- C6: creating a student or a test under an identifier not yet in the
store succeeds and returns the record unchanged, and a subsequent get with
that identifier returns the very record supplied at creation (all field
values identical). -/
theorem create_get_roundtrip (s : Store) (st : Student) (t : Test) :
    (findStudent s st.id = none →
      (create_student s st).1 = .ok st ∧
      get_student (create_student s st).2 st.id = .ok st) ∧
    (findTest s t.id = none →
      (create_test s t).1 = .ok t ∧
      get_test (create_test s t).2 t.id = .ok t) := by
  constructor
  · intro h
    have hcr : (create_student s st) = (.ok st, { s with students := s.students ++ [st] }) := by
      simp [create_student, h]
    refine ⟨by rw [hcr], ?_⟩
    rw [hcr]
    have hfind : findStudent { s with students := s.students ++ [st] } st.id = some st := by
      unfold findStudent at h ⊢
      rw [List.find?_append, h, Option.none_or, List.find?_cons_of_pos _ (by simp)]
    simp [get_student, hfind]
  · intro h
    have hcr : (create_test s t) = (.ok t, { s with tests := s.tests ++ [t] }) := by
      simp [create_test, h]
    refine ⟨by rw [hcr], ?_⟩
    rw [hcr]
    have hfind : findTest { s with tests := s.tests ++ [t] } t.id = some t := by
      unfold findTest at h ⊢
      rw [List.find?_append, h, Option.none_or, List.find?_cons_of_pos _ (by simp)]
    simp [get_test, hfind]

/-- Witness for C6: creating Ann Lee and the Quiz in the empty store and
reading them back. -/
theorem create_get_roundtrip_witness :
    ((create_student emptyStore annLee).1 = .ok annLee ∧
      get_student (create_student emptyStore annLee).2 1 = .ok annLee) ∧
    ((create_test emptyStore quiz).1 = .ok quiz ∧
      get_test (create_test emptyStore quiz).2 1 = .ok quiz) :=
  ⟨(create_get_roundtrip emptyStore annLee quiz).1 rfl,
    (create_get_roundtrip emptyStore annLee quiz).2 rfl⟩

/-- C7: deleting an unknown student identifier fails with the not-found
error and changes nothing; deleting a known one succeeds, after which a get
of that identifier fails with not-found and the student listing is the old
listing with exactly the matching record removed (relative order kept),
while the result list and the tests are completely untouched. -/
theorem delete_student_contract (s : Store) (id : Int) :
    (findStudent s id = none →
      (delete_student s id).1 = .error ⟨404, "Student not found"⟩ ∧
      (delete_student s id).2 = s) ∧
    (∀ st, findStudent s id = some st →
      (delete_student s id).1 = .ok "Student deleted successfully" ∧
      get_student (delete_student s id).2 id = .error ⟨404, "Student not found"⟩ ∧
      get_all_students (delete_student s id).2
        = s.students.filter (fun x => x.id != id) ∧
      (get_all_students (delete_student s id).2).Sublist s.students ∧
      (delete_student s id).2.test_results = s.test_results ∧
      (delete_student s id).2.tests = s.tests) := by
  constructor
  · intro h
    constructor <;> simp [delete_student, h]
  · intro st h
    have hsome : (findStudent s id).isSome := by simp [h]
    have hdel : (delete_student s id)
        = (.ok "Student deleted successfully",
            { s with students := s.students.filter (fun x => x.id != id) }) := by
      simp [delete_student, hsome]
    have hgone : findStudent { s with students := s.students.filter (fun x => x.id != id) } id
        = none := by
      unfold findStudent
      refine List.find?_eq_none.mpr fun x hx => ?_
      have hxid : (x.id != id) = true := (List.mem_filter.mp hx).2
      simp at hxid ⊢
      exact hxid
    refine ⟨by rw [hdel], by rw [hdel]; simp [get_student, hgone], by rw [hdel]; rfl,
      ?_, by rw [hdel], by rw [hdel]⟩
    rw [hdel]
    exact List.filter_sublist s.students

/-- Witness for C7: deleting student 1 from the §8 store. -/
theorem delete_student_contract_witness :
    (delete_student demoStore 1).1 = .ok "Student deleted successfully" ∧
    get_student (delete_student demoStore 1).2 1 = .error ⟨404, "Student not found"⟩ ∧
    get_all_students (delete_student demoStore 1).2 = [] ∧
    (get_all_students (delete_student demoStore 1).2).Sublist [annLee] ∧
    (delete_student demoStore 1).2.test_results = [] ∧
    (delete_student demoStore 1).2.tests = [quiz] := by
  have h := (delete_student_contract demoStore 1).2 annLee rfl
  exact h

/-- C8: listing results by student (resp. by test) fails with not-found when
the identifier is absent — even though the filter alone would be empty — and
otherwise returns exactly the matching subsequence of the result list in its
original order: the returned list is the filter of `test_results`, it is a
sublist (order-preserving), every returned result matches the identifier,
and every stored matching result is returned. -/
theorem results_filter_contract (s : Store) (id : Int) :
    (findStudent s id = none →
      get_student_results s id = .error ⟨404, "Student not found"⟩) ∧
    ((findStudent s id).isSome →
      get_student_results s id
        = .ok (s.test_results.filter (fun r => r.student_id == id)) ∧
      (s.test_results.filter (fun r => r.student_id == id)).Sublist s.test_results ∧
      (∀ r ∈ s.test_results.filter (fun r => r.student_id == id), r.student_id = id) ∧
      (∀ r ∈ s.test_results, r.student_id = id →
        r ∈ s.test_results.filter (fun r => r.student_id == id))) ∧
    (findTest s id = none →
      get_test_results s id = .error ⟨404, "Test not found"⟩) ∧
    ((findTest s id).isSome →
      get_test_results s id
        = .ok (s.test_results.filter (fun r => r.test_id == id)) ∧
      (s.test_results.filter (fun r => r.test_id == id)).Sublist s.test_results ∧
      (∀ r ∈ s.test_results.filter (fun r => r.test_id == id), r.test_id = id) ∧
      (∀ r ∈ s.test_results, r.test_id = id →
        r ∈ s.test_results.filter (fun r => r.test_id == id))) := by
  refine ⟨fun h => by simp [get_student_results, h], fun h => ?_,
    fun h => by simp [get_test_results, h], fun h => ?_⟩
  · refine ⟨by simp [get_student_results, h], List.filter_sublist _, fun r hr => ?_,
      fun r hr hid => ?_⟩
    · have := (List.mem_filter.mp hr).2
      simpa using this
    · exact List.mem_filter.mpr ⟨hr, by simp [hid]⟩
  · refine ⟨by simp [get_test_results, h], List.filter_sublist _, fun r hr => ?_,
      fun r hr hid => ?_⟩
    · have := (List.mem_filter.mp hr).2
      simpa using this
    · exact List.mem_filter.mpr ⟨hr, by simp [hid]⟩

/-- Witness for C8: on the store holding three results for test 1, listing
by student 1 and by test 1 return all three in order. -/
theorem results_filter_contract_witness :
    get_student_results scoresStore 1 = .ok [⟨1, 1, 5⟩, ⟨1, 1, 10⟩, ⟨1, 1, 15⟩] ∧
    get_test_results scoresStore 1 = .ok [⟨1, 1, 5⟩, ⟨1, 1, 10⟩, ⟨1, 1, 15⟩] := by
  have h := results_filter_contract scoresStore 1
  exact ⟨(h.2.1 rfl).1, (h.2.2.2 rfl).1⟩

/-! Python `max(l)` / `min(l)` on a nonempty list are left folds; the
following characterize them as the list maximum / minimum. -/

theorem foldl_max_mem (a : Int) (l : List Int) : l.foldl max a ∈ a :: l := by
  induction l generalizing a with
  | nil => simp
  | cons b t ih =>
    have h := ih (max a b)
    rcases List.mem_cons.mp h with h1 | h1
    · rcases max_choice a b with h2 | h2 <;> rw [List.foldl_cons, h1, h2] <;> simp
    · simp [List.foldl_cons, h1]

theorem le_foldl_max (a : Int) (l : List Int) : ∀ x ∈ a :: l, x ≤ l.foldl max a := by
  induction l generalizing a with
  | nil =>
    intro x hx
    simp at hx
    simp [hx]
  | cons b t ih =>
    intro x hx
    rw [List.foldl_cons]
    rcases List.mem_cons.mp hx with h1 | h1
    · subst h1
      exact le_trans (le_max_left x b) (ih (max x b) _ (List.mem_cons_self _ _))
    · rcases List.mem_cons.mp h1 with h2 | h2
      · subst h2
        exact le_trans (le_max_right a x) (ih (max a x) _ (List.mem_cons_self _ _))
      · exact ih (max a b) x (List.mem_cons_of_mem _ h2)

theorem foldl_min_mem (a : Int) (l : List Int) : l.foldl min a ∈ a :: l := by
  induction l generalizing a with
  | nil => simp
  | cons b t ih =>
    have h := ih (min a b)
    rcases List.mem_cons.mp h with h1 | h1
    · rcases min_choice a b with h2 | h2 <;> rw [List.foldl_cons, h1, h2] <;> simp
    · simp [List.foldl_cons, h1]

theorem foldl_min_le (a : Int) (l : List Int) : ∀ x ∈ a :: l, l.foldl min a ≤ x := by
  induction l generalizing a with
  | nil =>
    intro x hx
    simp at hx
    simp [hx]
  | cons b t ih =>
    intro x hx
    rw [List.foldl_cons]
    rcases List.mem_cons.mp hx with h1 | h1
    · subst h1
      exact le_trans (ih (min x b) _ (List.mem_cons_self _ _)) (min_le_left x b)
    · rcases List.mem_cons.mp h1 with h2 | h2
      · subst h2
        exact le_trans (ih (min a x) _ (List.mem_cons_self _ _)) (min_le_right a x)
      · exact ih (min a b) x (List.mem_cons_of_mem _ h2)

/-- C4: each aggregate endpoint first fails with not-found on an unknown
test id; then, with no result referencing the test, fails with the
no-results error; otherwise the average endpoint returns the exact
arithmetic mean of the collected scores (sum over count, the float modelled
by the exact rational), the highest endpoint a score that is among them and
bounds them all from above, and the lowest one that bounds them all from
below. -/
theorem aggregates_contract (s : Store) (tid : Int) :
    (findTest s tid = none →
      get_test_average s tid = .error ⟨404, "Test not found"⟩ ∧
      get_test_highest s tid = .error ⟨404, "Test not found"⟩ ∧
      get_test_lowest s tid = .error ⟨404, "Test not found"⟩) ∧
    ((findTest s tid).isSome → test_scores s tid = [] →
      get_test_average s tid = .error ⟨404, "No results found for this test"⟩ ∧
      get_test_highest s tid = .error ⟨404, "No results found for this test"⟩ ∧
      get_test_lowest s tid = .error ⟨404, "No results found for this test"⟩) ∧
    ((findTest s tid).isSome → ∀ hd tl, test_scores s tid = hd :: tl →
      get_test_average s tid
        = .ok (((hd :: tl).sum : Rat) / ((hd :: tl).length : Rat)) ∧
      (∃ m, get_test_highest s tid = .ok m ∧ m ∈ hd :: tl ∧ ∀ x ∈ hd :: tl, x ≤ m) ∧
      (∃ m, get_test_lowest s tid = .ok m ∧ m ∈ hd :: tl ∧ ∀ x ∈ hd :: tl, m ≤ x)) := by
  refine ⟨fun h => ?_, fun h hsc => ?_, fun h hd tl hsc => ?_⟩
  · refine ⟨?_, ?_, ?_⟩ <;> simp [get_test_average, get_test_highest, get_test_lowest, h]
  · refine ⟨?_, ?_, ?_⟩ <;>
      simp [get_test_average, get_test_highest, get_test_lowest, h, hsc]
  · refine ⟨?_, ⟨tl.foldl max hd, ?_, foldl_max_mem hd tl, le_foldl_max hd tl⟩,
      ⟨tl.foldl min hd, ?_, foldl_min_mem hd tl, foldl_min_le hd tl⟩⟩ <;>
      simp [get_test_average, get_test_highest, get_test_lowest, h, hsc]

/-- Witness for C4: for recorded scores 5, 10, 15 on test 1 the endpoints
return 10, 15 and 5. -/
theorem aggregates_contract_witness :
    get_test_average scoresStore 1 = .ok 10 ∧
    get_test_highest scoresStore 1 = .ok 15 ∧
    get_test_lowest scoresStore 1 = .ok 5 := by
  obtain ⟨havg, ⟨m, hm, hmem, hub⟩, ⟨m', hm', hmem', hlb⟩⟩ :=
    (aggregates_contract scoresStore 1).2.2 rfl 5 [10, 15] rfl
  refine ⟨?_, ?_, ?_⟩
  · refine havg.trans (congrArg Except.ok ?_)
    norm_num
  · have h15 : (15 : Int) ≤ m := hub 15 (by simp)
    have hmeq : m = 15 := by
      simp at hmem
      rcases hmem with h | h | h <;> omega
    exact hmeq ▸ hm
  · have h5 : m' ≤ (5 : Int) := hlb 5 (by simp)
    have hmeq : m' = 5 := by
      simp at hmem'
      rcases hmem' with h | h | h <;> omega
    exact hmeq ▸ hm'

theorem create_student_frame (s : Store) (st : Student) :
    (create_student s st).2.tests = s.tests ∧
    (create_student s st).2.test_results = s.test_results := by
  unfold create_student
  split <;> exact ⟨rfl, rfl⟩

theorem delete_student_frame (s : Store) (i : Int) :
    (delete_student s i).2.tests = s.tests ∧
    (delete_student s i).2.test_results = s.test_results := by
  unfold delete_student
  split <;> exact ⟨rfl, rfl⟩

theorem create_test_frame (s : Store) (t : Test) :
    (create_test s t).2.students = s.students ∧
    (create_test s t).2.test_results = s.test_results ∧
    ∃ l, (create_test s t).2.tests = s.tests ++ l := by
  unfold create_test
  split
  · exact ⟨rfl, rfl, [], by simp⟩
  · exact ⟨rfl, rfl, [t], rfl⟩

/-- A submission either raises (leaving the store untouched) or passed all
three checks and performs the two appends. -/
theorem submit_cases (s : Store) (r : TestResult) :
    (submit_test_result s r).2 = s ∨
    ((findStudent s r.student_id).isSome ∧
      ∃ t, findTest s r.test_id = some t ∧ r.score ≤ t.max_score ∧
        (submit_test_result s r).2
          = { s with
              test_results := s.test_results ++ [r],
              students := s.students.map (appendTaken r) }) := by
  unfold submit_test_result
  cases hfs : findStudent s r.student_id with
  | none => exact .inl rfl
  | some st =>
    cases hft : findTest s r.test_id with
    | none => exact .inl rfl
    | some t =>
      dsimp only
      by_cases hsc : r.score > t.max_score
      · rw [if_pos hsc]
        exact .inl rfl
      · rw [if_neg hsc]
        exact .inr ⟨by simp [hfs], t, rfl, not_lt.mp hsc, rfl⟩

theorem scoreInv_apply {s : Store} (h : ScoreInv s) (op : Op) : ScoreInv (apply s op) := by
  cases op with
  | opCreateStudent st =>
    intro r hr
    simp only [apply] at hr ⊢
    rw [(create_student_frame s st).2] at hr
    obtain ⟨t', ht', hid, hle⟩ := h r hr
    exact ⟨t', by rw [(create_student_frame s st).1]; exact ht', hid, hle⟩
  | opDeleteStudent i =>
    intro r hr
    simp only [apply] at hr ⊢
    rw [(delete_student_frame s i).2] at hr
    obtain ⟨t', ht', hid, hle⟩ := h r hr
    exact ⟨t', by rw [(delete_student_frame s i).1]; exact ht', hid, hle⟩
  | opCreateTest t =>
    intro r hr
    simp only [apply] at hr ⊢
    rw [(create_test_frame s t).2.1] at hr
    obtain ⟨t', ht', hid, hle⟩ := h r hr
    obtain ⟨l, hl⟩ := (create_test_frame s t).2.2
    exact ⟨t', by rw [hl]; exact List.mem_append_left _ ht', hid, hle⟩
  | opSubmitResult r0 =>
    intro r hr
    simp only [apply] at hr ⊢
    rcases submit_cases s r0 with hc | ⟨hst, t, hft, hsc, hc⟩
    · rw [hc] at hr ⊢
      exact h r hr
    · rw [hc] at hr ⊢
      simp only at hr ⊢
      rcases List.mem_append.mp hr with h1 | h1
      · exact h r h1
      · have hr0 : r = r0 := by simpa using h1
        subst hr0
        refine ⟨t, List.mem_of_find?_eq_some hft, ?_, hsc⟩
        have := List.find?_some hft
        simpa using this

theorem scoreInv_run {s : Store} (h : ScoreInv s) (ops : List Op) : ScoreInv (run s ops) := by
  induction ops generalizing s with
  | nil => exact h
  | cons op rest ih => exact ih (scoreInv_apply h op)

/-- C5: the score invariant — every stored result's score is bounded by the
max score of the stored test it references — holds in the empty store, is
preserved by every API operation, and therefore holds in every store
reachable from the empty store by any call sequence. -/
theorem score_invariant_reachable :
    (∀ s : Store, ∀ op : Op, ScoreInv s → ScoreInv (apply s op)) ∧
    (∀ ops : List Op, ScoreInv (exec ops)) :=
  ⟨fun _ op h => scoreInv_apply h op,
    fun ops => scoreInv_run (fun r hr => absurd hr (List.not_mem_nil r)) ops⟩

/-- Witness for C5: in the store reached by creating Ann Lee and the Quiz
and submitting a score of 18, the stored result is covered by a stored test
bounding it. -/
theorem score_invariant_reachable_witness :
    ∃ t ∈ (exec demoOps).tests, t.id = 1 ∧ (18 : Int) ≤ t.max_score :=
  score_invariant_reachable.2 demoOps ⟨1, 1, 18⟩ (by decide)

theorem create_student_cases (s : Store) (stc : Student) :
    ((findStudent s stc.id).isSome ∧ (create_student s stc).2 = s) ∨
    (findStudent s stc.id = none ∧
      (create_student s stc).2 = { s with students := s.students ++ [stc] }) := by
  unfold create_student
  by_cases h : (findStudent s stc.id).isSome
  · rw [if_pos h]
    exact .inl ⟨h, rfl⟩
  · rw [if_neg h]
    exact .inr ⟨Option.not_isSome_iff_eq_none.mp h, rfl⟩

theorem delete_student_cases (s : Store) (i : Int) :
    (findStudent s i = none ∧ (delete_student s i).2 = s) ∨
    ((findStudent s i).isSome ∧
      (delete_student s i).2
        = { s with students := s.students.filter (fun x => x.id != i) }) := by
  unfold delete_student
  by_cases h : (findStudent s i).isSome
  · rw [if_pos h]
    exact .inr ⟨h, rfl⟩
  · rw [if_neg h]
    exact .inl ⟨Option.not_isSome_iff_eq_none.mp h, rfl⟩

/-- Counterexample to C9: the creation endpoint accepts the `tests_taken`
field of the request body, so a student can be created with a non-empty
taken-tests sequence — it is not always empty at creation time. -/
theorem taken_tests_creation_cex :
    (create_student emptyStore ⟨1, "Ann Lee", "a@x.com", [7]⟩).1
        = .ok ⟨1, "Ann Lee", "a@x.com", [7]⟩ ∧
    findStudent (create_student emptyStore ⟨1, "Ann Lee", "a@x.com", [7]⟩).2 1
        = some ⟨1, "Ann Lee", "a@x.com", [7]⟩ ∧
    (⟨1, "Ann Lee", "a@x.com", [7]⟩ : Student).tests_taken ≠ [] :=
  ⟨rfl, rfl, by decide⟩

/-- C9 (amended): a stored student's taken-tests sequence starts as the
sequence supplied in the creation payload (empty by default), and thereafter
the only state transition that changes it is a successful result submission
for that student, which appends the submitted test id (append-only
growth). -/
theorem taken_tests_evolution (s : Store) (op : Op) (id : Int) (st' : Student)
    (h : findStudent (apply s op) id = some st') :
    (∃ st, findStudent s id = some st ∧
      (st'.tests_taken = st.tests_taken ∨
        ∃ r, op = .opSubmitResult r ∧ r.student_id = id ∧
          st'.tests_taken = st.tests_taken ++ [r.test_id])) ∨
    (findStudent s id = none ∧ ∃ stc, op = .opCreateStudent stc ∧ st' = stc) := by
  cases op with
  | opCreateStudent stc =>
    simp only [apply] at h
    rcases create_student_cases s stc with ⟨hdup, heq⟩ | ⟨hnew, heq⟩
    · rw [heq] at h
      exact .inl ⟨st', h, .inl rfl⟩
    · rw [heq] at h
      unfold findStudent at h ⊢
      dsimp only at h
      rw [List.find?_append] at h
      cases hfs : s.students.find? (fun x => x.id == id) with
      | some st0 =>
        rw [hfs] at h
        simp [Option.or] at h
        exact .inl ⟨st0, rfl, .inl (by rw [h])⟩
      | none =>
        rw [hfs, Option.none_or] at h
        by_cases hid : (stc.id == id) = true
        · rw [@List.find?_cons_of_pos Student (fun st => st.id == id) stc [] hid] at h
          have hst : st' = stc := by
            injection h with h1
            exact h1.symm
          exact .inr ⟨rfl, stc, rfl, hst⟩
        · rw [@List.find?_cons_of_neg Student (fun st => st.id == id) stc [] hid] at h
          exact absurd h (by simp [List.find?])
  | opDeleteStudent d =>
    simp only [apply] at h
    rcases delete_student_cases s d with ⟨hnone, heq⟩ | ⟨hsome, heq⟩
    · rw [heq] at h
      exact .inl ⟨st', h, .inl rfl⟩
    · rw [heq] at h
      unfold findStudent at h ⊢
      dsimp only at h
      by_cases hid : id = d
      · exfalso
        subst hid
        have : (s.students.filter (fun x => x.id != id)).find? (fun x => x.id == id)
            = none := by
          refine List.find?_eq_none.mpr fun x hx => ?_
          have hxid : (x.id != id) = true := (List.mem_filter.mp hx).2
          simp at hxid ⊢
          exact hxid
        rw [this] at h
        exact Option.noConfusion h
      · rw [find?_filter_of_imp _ _ _ fun x hx => ?imp] at h
        · exact .inl ⟨st', h, .inl rfl⟩
        case imp =>
          simp at hx ⊢
          rw [hx]
          exact hid
  | opCreateTest t =>
    simp only [apply] at h
    have hfr : (create_test s t).2.students = s.students := (create_test_frame s t).1
    unfold findStudent at h ⊢
    rw [hfr] at h
    exact .inl ⟨st', h, .inl rfl⟩
  | opSubmitResult r =>
    simp only [apply] at h
    rcases submit_cases s r with heq | ⟨hst, t, hft, hsc, heq⟩
    · rw [heq] at h
      exact .inl ⟨st', h, .inl rfl⟩
    · rw [heq, findStudent_submit_store] at h
      cases hfs : findStudent s id with
      | none =>
        rw [hfs] at h
        exact absurd h (by simp)
      | some st0 =>
        rw [hfs] at h
        simp only [Option.map_some'] at h
        have hid0 : st0.id = id := by
          have := List.find?_some hfs
          simpa using this
        injection h with h2
        by_cases hrid : r.student_id = id
        · refine .inl ⟨st0, rfl, .inr ⟨r, rfl, hrid, ?_⟩⟩
          rw [← h2]
          simp [appendTaken, hid0, hrid]
        · refine .inl ⟨st0, rfl, .inl ?_⟩
          rw [← h2]
          have hne : (st0.id == r.student_id) = false :=
            beq_eq_false_iff_ne.mpr (by rw [hid0]; exact fun hc => hrid hc.symm)
          simp [appendTaken, hne]

/-- Witness for C9 (amended): submitting score 18 for Ann extends her
taken-tests from `[]` to `[1]`. -/
theorem taken_tests_evolution_witness :
    (∃ st, findStudent demoStore 1 = some st ∧
      ((⟨1, "Ann Lee", "a@x.com", [1]⟩ : Student).tests_taken = st.tests_taken ∨
        ∃ r, Op.opSubmitResult (⟨1, 1, 18⟩ : TestResult) = .opSubmitResult r ∧
          r.student_id = 1 ∧
          (⟨1, "Ann Lee", "a@x.com", [1]⟩ : Student).tests_taken
            = st.tests_taken ++ [r.test_id])) ∨
    (findStudent demoStore 1 = none ∧
      ∃ stc, Op.opSubmitResult (⟨1, 1, 18⟩ : TestResult) = .opCreateStudent stc ∧
        (⟨1, "Ann Lee", "a@x.com", [1]⟩ : Student) = stc) :=
  taken_tests_evolution demoStore (.opSubmitResult ⟨1, 1, 18⟩) 1
    ⟨1, "Ann Lee", "a@x.com", [1]⟩ rfl

theorem run_tests_eq (s : Store) (ops : List Op) :
    (run s ops).tests = s.tests ++ testCreations s ops := by
  induction ops generalizing s with
  | nil => simp [run, testCreations]
  | cons op rest ih =>
    rw [show run s (op :: rest) = run (apply s op) rest from rfl, ih (apply s op)]
    cases op with
    | opCreateStudent st =>
      simp [apply, testCreations, (create_student_frame s st).1]
    | opDeleteStudent i =>
      simp [apply, testCreations, (delete_student_frame s i).1]
    | opCreateTest t =>
      by_cases h : (findTest s t.id).isSome
      · have hdup : (create_test s t).2 = s := by simp [create_test, h]
        simp [apply, testCreations, h, hdup]
      · have hnew : (create_test s t).2 = { s with tests := s.tests ++ [t] } := by
          simp [create_test, h]
        simp [apply, testCreations, h, hnew]
    | opSubmitResult r =>
      rcases submit_cases s r with heq | ⟨hst, t, hft, hsc, heq⟩ <;>
        simp [apply, testCreations, heq]

theorem run_students_ids_sublist (s : Store) (ops : List Op) :
    ((run s ops).students.map (fun st => st.id)).Sublist
      (s.students.map (fun st => st.id) ++ studentCreations s ops) := by
  induction ops generalizing s with
  | nil =>
    simp [run, studentCreations]
  | cons op rest ih =>
    rw [show run s (op :: rest) = run (apply s op) rest from rfl]
    refine (ih (apply s op)).trans ?_
    cases op with
    | opCreateStudent st =>
      by_cases h : (findStudent s st.id).isSome
      · have hdup : (create_student s st).2 = s := by simp [create_student, h]
        simp [apply, studentCreations, h, hdup]
      · have hnew : (create_student s st).2 = { s with students := s.students ++ [st] } := by
          simp [create_student, h]
        simp [apply, studentCreations, h, hnew]
    | opDeleteStudent i =>
      rcases delete_student_cases s i with ⟨hno, heq⟩ | ⟨hyes, heq⟩
      · simp [apply, studentCreations, heq]
      · simp only [apply, studentCreations, heq]
        refine List.Sublist.append ?_ (List.Sublist.refl _)
        exact (List.filter_sublist s.students).map (fun st => st.id)
    | opCreateTest t =>
      simp [apply, studentCreations, (create_test_frame s t).1]
    | opSubmitResult r =>
      rcases submit_cases s r with heq | ⟨hst, t, hft, hsc, heq⟩
      · simp [apply, studentCreations, heq]
      · simp only [apply, studentCreations, heq]
        have hmap : (s.students.map (appendTaken r)).map (fun st => st.id)
            = s.students.map (fun st => st.id) := by
          rw [List.map_map]
          exact List.map_congr_left fun st _ => appendTaken_id r st
        simp [hmap]

/-- C10: the two listing endpoints return exactly the stored collections;
run from the empty store, the tests listing is exactly the successfully
created test records in creation order, and the ids of the listed students
form a subsequence of the successful student creations in creation order
(deleted students are omitted, surviving ones keep creation order). -/
theorem list_endpoints_insertion_order (ops : List Op) :
    get_all_students (exec ops) = (exec ops).students ∧
    get_all_tests (exec ops) = (exec ops).tests ∧
    ((exec ops).students.map (fun st => st.id)).Sublist (studentCreations emptyStore ops) ∧
    (exec ops).tests = testCreations emptyStore ops := by
  refine ⟨rfl, rfl, ?_, ?_⟩
  · have h := run_students_ids_sublist emptyStore ops
    simpa [emptyStore] using h
  · have h := run_tests_eq emptyStore ops
    simpa [emptyStore] using h
